import Mathlib

/-!
Verification of the CCKVServer key-value server against its specification.

The development shallowly embeds the parts of the Rust source that the
checked properties talk about:

* the protobuf data model (`Value`, `Kvpair`, `CommandRequest`,
  `CommandResponse`) from `src/pb` — the generated `abi` module is not in
  the tree, so the plain record shapes are modelled from the spec (§3),
  while every conversion (`From`/`TryFrom` impls) is translated from
  `src/pb/mod.rs`;
* the error enum `KvError` from `src/error.rs` and its mapping to
  responses from `src/pb/mod.rs`;
* the in-memory store `MemTable` from `src/storage/memory.rs` (a `DashMap`
  of `DashMap`s, embedded as association lists) and the command services
  from `src/service/command_service.rs` plus `dispatch` from
  `src/service/mod.rs`;
* the pub/sub `Broadcaster` from `src/service/topic.rs`, embedded as a
  sequential state machine (each operation runs atomically; spawned send
  tasks are executed in place; a tokio `mpsc` channel is a queue of sent
  messages together with a `closed` flag that is true once the receiver
  is gone);
* the frame codec from `src/network/frame.rs`.  The external collaborators
  (`prost` serialization and the gzip/lz4/zstd compressor crates) are taken
  as parameters, with their documented round-trip guarantees as explicit
  hypotheses; the `CompressorType::None` arm of `compress`/`decompress`
  from `src/network/compressor/mod.rs`, which appends nothing, is embedded
  exactly;
* `StreamResult::new` from `src/network/stream_result.rs`.

Rust `u32`/`usize` values are embedded as `Nat` with explicit `% 2 ^ 32`
truncation where the source truncates; `i64` as `Int`.  A Rust function
that can panic is embedded with an explicit `panicked` outcome.
-/

namespace CCKV

/-! ## Association-list finite maps

`DashMap`s are embedded as association lists with at most one binding per
key; insertion replaces the old binding, removal drops it.  Iteration
order of a `DashMap` is unspecified, and no verified property observes
it, so the canonical prepend representation is used. -/

def lookupA {κ α : Type} [DecidableEq κ] : List (κ × α) → κ → Option α
  | [], _ => none
  | (k', v) :: t, k => if k' = k then some v else lookupA t k

def removeA {κ α : Type} [DecidableEq κ] (l : List (κ × α)) (k : κ) : List (κ × α) :=
  l.filter (fun p => if p.1 = k then false else true)

def insertA {κ α : Type} [DecidableEq κ] (l : List (κ × α)) (k : κ) (v : α) : List (κ × α) :=
  (k, v) :: removeA l k

/-! ## Data model (spec §3; shapes of the generated `pb::abi` module)

Modelled from the spec: the prost-generated `abi` module is not under
`src/`, so the record shapes follow §3 of the spec.  A protobuf `f64`
field is carried as its raw 64-bit pattern, which is never interpreted
here. -/

inductive ValueInner where
  | vstring (s : String)
  | vbinary (b : List Nat)
  | vinteger (i : Int)
  | vfloat (bits : Nat)
  | vbool (b : Bool)
deriving DecidableEq, Repr

structure Value where
  value : Option ValueInner
deriving DecidableEq, Repr

/-- Embeds `Value::default()`: the `value` oneof is unset. -/
def Value.defaultV : Value := ⟨none⟩

structure Kvpair where
  key : String
  value : Option Value
deriving DecidableEq, Repr

structure CommandResponse where
  status : Nat
  message : String
  values : List Value
  pairs : List Kvpair
deriving DecidableEq, Repr

inductive RequestData where
  | hget (table key : String)
  | hgetall (table : String)
  | hset (table : String) (pair : Option Kvpair)
  | hdel (table key : String)
  | hexist (table key : String)
  | hmget (table : String) (keys : List String)
  | hmset (table : String) (pairs : List Kvpair)
  | hmdel (table : String) (keys : List String)
  | hmexist (table : String) (keys : List String)
deriving DecidableEq, Repr

structure CommandRequest where
  requestData : Option RequestData
deriving DecidableEq, Repr

/-! ## Errors (`src/error.rs`) and response conversions (`src/pb/mod.rs`) -/

inductive KvError where
  | notFound (what : String)
  | frameError
  | invaildCommand (s : String)
  | convertError (v : String) (target : String)
  | internal (s : String)
  | ioError
  | encodeError
  | decodeError
deriving DecidableEq, Repr

/-- The `thiserror` `Display` strings of `src/error.rs`.  (The tree carries
two revisions of the `NotFound` variant — one-argument in `src/error.rs`
and `src/service/topic.rs`, two-argument in `src/service/command_service.rs`
— so `notFound` carries a single pre-formatted string; no verified
property inspects its text.) -/
def KvError.toMessage : KvError → String
  | .notFound w => "Not found " ++ w
  | .frameError => "Frame is larger than max size"
  | .invaildCommand s => "Command is invalid " ++ s
  | .convertError v t => "Cannot convert value " ++ v ++ " to " ++ t
  | .internal s => "Internal error: " ++ s
  | .ioError => "I/O error"
  | .encodeError => "Failed to encode protobuf message"
  | .decodeError => "Failed to decode protobuf message"

/-- Embeds `impl From<Value> for CommandResponse` (`src/pb/mod.rs:158`). -/
def CommandResponse.ofValue (v : Value) : CommandResponse :=
  { status := 200, message := "", values := [v], pairs := [] }

/-- Embeds `impl From<Vec<Value>> for CommandResponse` (`src/pb/mod.rs:200`). -/
def CommandResponse.ofValues (vs : List Value) : CommandResponse :=
  { status := 200, message := "", values := vs, pairs := [] }

/-- Embeds `impl From<Vec<Kvpair>> for CommandResponse` (`src/pb/mod.rs:169`). -/
def CommandResponse.ofPairs (ps : List Kvpair) : CommandResponse :=
  { status := 200, message := "", values := [], pairs := ps }

/-- Embeds `impl From<KvError> for CommandResponse` (`src/pb/mod.rs:180`):
status 500 by default, 404 for `NotFound`, 400 for `InvaildCommand`. -/
def CommandResponse.ofError (e : KvError) : CommandResponse :=
  { status :=
      match e with
      | .notFound _ => 404
      | .invaildCommand _ => 400
      | _ => 500,
    message := e.toMessage, values := [], pairs := [] }

/-- Embeds `impl TryFrom<Value> for i64` (`src/pb/mod.rs:210`). -/
def Value.tryIntoI64 (v : Value) : Except KvError Int :=
  match v.value with
  | some (.vinteger i) => .ok i
  | _ => .error (.convertError "" "Integer")

/-! ## In-memory store (`src/storage/memory.rs`)

`MemTable` is a `DashMap<String, DashMap<String, Value>>`.  Every
operation goes through `get_or_create_table`, which inserts an empty
inner map when the named table is missing; the store is threaded
explicitly through each embedded operation. -/

structure MemTable where
  tables : List (String × List (String × Value))
deriving DecidableEq, Repr

def MemTable.new : MemTable := ⟨[]⟩

/-- Embeds `MemTable::get_or_create_table`. -/
def MemTable.getOrCreateTable (m : MemTable) (name : String) :
    List (String × Value) × MemTable :=
  match lookupA m.tables name with
  | some t => (t, m)
  | none => ([], ⟨insertA m.tables name []⟩)

/-- Embeds `Storage::get` for `MemTable` (never errors). -/
def MemTable.get (m : MemTable) (table key : String) : Option Value × MemTable :=
  let (t, m') := m.getOrCreateTable table
  (lookupA t key, m')

/-- Embeds `Storage::set` for `MemTable`: insert, returning the previous value. -/
def MemTable.set (m : MemTable) (table key : String) (v : Value) :
    Option Value × MemTable :=
  let (t, m') := m.getOrCreateTable table
  (lookupA t key, ⟨insertA m'.tables table (insertA t key v)⟩)

/-- Embeds `Storage::contains` for `MemTable`. -/
def MemTable.containsKV (m : MemTable) (table key : String) : Bool × MemTable :=
  let (t, m') := m.getOrCreateTable table
  ((lookupA t key).isSome, m')

/-- Embeds `Storage::del` for `MemTable`: remove, returning the removed value. -/
def MemTable.del (m : MemTable) (table key : String) : Option Value × MemTable :=
  let (t, m') := m.getOrCreateTable table
  (lookupA t key, ⟨insertA m'.tables table (removeA t key)⟩)

/-- Embeds `Storage::get_all` for `MemTable`. -/
def MemTable.getAll (m : MemTable) (table : String) : List Kvpair × MemTable :=
  let (t, m') := m.getOrCreateTable table
  (t.map (fun p => ⟨p.1, some p.2⟩), m')

/-! ## Command services (`src/service/command_service.rs`) -/

/-- Embeds `impl CommandService for Hget`. -/
def Hget.execute (table key : String) (store : MemTable) :
    CommandResponse × MemTable :=
  let (r, s) := store.get table key
  match r with
  | some v => (.ofValue v, s)
  | none => (.ofError (.notFound ("table: " ++ table ++ ", key: " ++ key)), s)

/-- The per-key loop of `impl CommandService for Hmget`:
`Ok(Some(v)) => v, _ => Value::default()`. -/
def Hmget.collect (table : String) (keys : List String) (store : MemTable) :
    List Value × MemTable :=
  match keys with
  | [] => ([], store)
  | k :: ks =>
    let (r, s) := store.get table k
    let v := match r with
      | some v => v
      | none => Value.defaultV
    let (vs, s') := Hmget.collect table ks s
    (v :: vs, s')

/-- Embeds `impl CommandService for Hmget`. -/
def Hmget.execute (table : String) (keys : List String) (store : MemTable) :
    CommandResponse × MemTable :=
  let (vs, s) := Hmget.collect table keys store
  (.ofValues vs, s)

/-- Embeds `impl CommandService for Hgetall`. -/
def Hgetall.execute (table : String) (store : MemTable) :
    CommandResponse × MemTable :=
  let (ps, s) := store.getAll table
  (.ofPairs ps, s)

/-- Embeds `impl CommandService for Hset`: with a pair, insert and answer the
previous value (or the default); with `pair == None`, answer the default
value without touching the store. -/
def Hset.execute (table : String) (pair : Option Kvpair) (store : MemTable) :
    CommandResponse × MemTable :=
  match pair with
  | some p =>
    let (r, s) := store.set table p.key (p.value.getD Value.defaultV)
    match r with
    | some v => (.ofValue v, s)
    | none => (.ofValue Value.defaultV, s)
  | none => (.ofValue Value.defaultV, store)

/-- The per-pair loop of `impl CommandService for Hmset`. -/
def Hmset.collect (table : String) (pairs : List Kvpair) (store : MemTable) :
    List Value × MemTable :=
  match pairs with
  | [] => ([], store)
  | p :: ps =>
    let (r, s) := store.set table p.key (p.value.getD Value.defaultV)
    let v := match r with
      | some v => v
      | none => Value.defaultV
    let (vs, s') := Hmset.collect table ps s
    (v :: vs, s')

/-- Embeds `impl CommandService for Hmset`. -/
def Hmset.execute (table : String) (pairs : List Kvpair) (store : MemTable) :
    CommandResponse × MemTable :=
  let (vs, s) := Hmset.collect table pairs store
  (.ofValues vs, s)

/-- Embeds `impl CommandService for Hdel`. -/
def Hdel.execute (table key : String) (store : MemTable) :
    CommandResponse × MemTable :=
  let (r, s) := store.del table key
  match r with
  | some v => (.ofValue v, s)
  | none => (.ofValue Value.defaultV, s)

/-- The per-key loop of `impl CommandService for Hmdel`. -/
def Hmdel.collect (table : String) (keys : List String) (store : MemTable) :
    List Value × MemTable :=
  match keys with
  | [] => ([], store)
  | k :: ks =>
    let (r, s) := store.del table k
    let v := match r with
      | some v => v
      | none => Value.defaultV
    let (vs, s') := Hmdel.collect table ks s
    (v :: vs, s')

/-- Embeds `impl CommandService for Hmdel`. -/
def Hmdel.execute (table : String) (keys : List String) (store : MemTable) :
    CommandResponse × MemTable :=
  let (vs, s) := Hmdel.collect table keys store
  (.ofValues vs, s)

/-- Embeds `impl CommandService for Hexist`. -/
def Hexist.execute (table key : String) (store : MemTable) :
    CommandResponse × MemTable :=
  let (b, s) := store.containsKV table key
  (.ofValue ⟨some (.vbool b)⟩, s)

/-- The per-key loop of `impl CommandService for Hmexist`. -/
def Hmexist.collect (table : String) (keys : List String) (store : MemTable) :
    List Value × MemTable :=
  match keys with
  | [] => ([], store)
  | k :: ks =>
    let (b, s) := store.containsKV table k
    let (vs, s') := Hmexist.collect table ks s
    ((⟨some (.vbool b)⟩ : Value) :: vs, s')

/-- Embeds `impl CommandService for Hmexist`. -/
def Hmexist.execute (table : String) (keys : List String) (store : MemTable) :
    CommandResponse × MemTable :=
  let (vs, s) := Hmexist.collect table keys store
  (.ofValues vs, s)

/-! ## Dispatcher (`src/service/mod.rs:51`) -/

/-- Embeds `dispatch`: route a request to its command service; a request with no
`request_data` becomes `InvaildCommand("Request has no data")`. -/
def dispatch (cmd : CommandRequest) (store : MemTable) :
    CommandResponse × MemTable :=
  match cmd.requestData with
  | some (.hget t k) => Hget.execute t k store
  | some (.hset t p) => Hset.execute t p store
  | some (.hdel t k) => Hdel.execute t k store
  | some (.hexist t k) => Hexist.execute t k store
  | some (.hmget t ks) => Hmget.execute t ks store
  | some (.hmset t ps) => Hmset.execute t ps store
  | some (.hmdel t ks) => Hmdel.execute t ks store
  | some (.hmexist t ks) => Hmexist.execute t ks store
  | some (.hgetall t) => Hgetall.execute t store
  | none => (.ofError (.invaildCommand "Request has no data"), store)

/-! ## Pub/sub broadcaster (`src/service/topic.rs`)

The `Broadcaster` is embedded as a sequential state machine: `DashMap`s
and `DashSet`s become association lists / lists, each trait method runs
atomically, and the bodies of the `tokio::spawn`ed tasks (the
acknowledgment send in `subscribe`, the fan-out in `publish`) are run in
place.  A `tokio::sync::mpsc` channel is a queue of the messages sent so
far plus a `closed` flag; `Sender::send` fails exactly when the receiver
is gone (`closed = true`), which is how the reaping path of `publish` is
reached.  The process-wide `NEXT_ID: AtomicU32` (initial value 1,
`fetch_add(1, Relaxed)`, wrapping at `2 ^ 32`) is carried as the
`nextId` field. -/

def U32MOD : Nat := 4294967296

structure Chan where
  msgs : List CommandResponse
  closed : Bool
deriving DecidableEq, Repr

/-- Embeds `Sender::send`: fails iff the receiver is gone, otherwise enqueues. -/
def Chan.send (c : Chan) (m : CommandResponse) : Bool × Chan :=
  if c.closed then (false, c) else (true, { c with msgs := c.msgs ++ [m] })

structure Broadcaster where
  topics : List (String × List Nat)
  subscriptions : List (Nat × Chan)
  nextId : Nat
deriving DecidableEq, Repr

/-- Embeds `Broadcaster::default()` together with the initial `NEXT_ID` of 1. -/
def Broadcaster.empty : Broadcaster := ⟨[], [], 1⟩

/-- The acknowledgment sent by `subscribe`:
`(id as i64).into() : Value` wrapped by `From<Value> for CommandResponse`. -/
def ackOf (id : Nat) : CommandResponse :=
  CommandResponse.ofValue ⟨some (.vinteger (Int.ofNat id))⟩

/-- Embeds `Topic::subscribe` for `Arc<Broadcaster>`: create-or-get the topic
entry, allocate `id = NEXT_ID.fetch_add(1)`, add `id` to the topic's
id-set, create the channel, send the id acknowledgment into it, and
store the sender under `id`.  Returns the new state and the id (the
caller keeps the receiver). -/
def Broadcaster.subscribe (b : Broadcaster) (name : String) : Broadcaster × Nat :=
  let id := b.nextId
  let set :=
    match lookupA b.topics name with
    | some s => s
    | none => []
  let set' := if id ∈ set then set else set ++ [id]
  let ch : Chan := { msgs := [ackOf id], closed := false }
  ({ topics := insertA b.topics name set',
     subscriptions := insertA b.subscriptions id ch,
     nextId := (b.nextId + 1) % U32MOD }, id)

/-- Embeds `Broadcaster::remove_subscription`: drop `id` from the named topic's
id-set (removing the topic when the set empties), then remove `id` from
the subscription map, returning the removed id if it was present. -/
def Broadcaster.removeSubscription (b : Broadcaster) (name : String) (id : Nat) :
    Option Nat × Broadcaster :=
  let topics' :=
    match lookupA b.topics name with
    | some s =>
      let s' := s.filter (fun x => if x = id then false else true)
      if s' = [] then removeA b.topics name else insertA b.topics name s'
    | none => b.topics
  ((lookupA b.subscriptions id).map (fun _ => id),
   { topics := topics', subscriptions := removeA b.subscriptions id,
     nextId := b.nextId })

/-- Embeds `Topic::unsubscribe`: `remove_subscription`, answering
`NotFound("subscription: {id}")` when the id was absent. -/
def Broadcaster.unsubscribe (b : Broadcaster) (name : String) (id : Nat) :
    Except KvError Nat × Broadcaster :=
  match b.removeSubscription name id with
  | (some i, b') => (.ok i, b')
  | (none, b') =>
    (.error (.notFound ("subscription: " ++ toString id)), b')

/-- The fan-out loop of `Topic::publish`: send to each id of the
snapshot, recording updated channels, the ids whose send failed, and the
ids actually delivered to. -/
def sendLoop (subs : List (Nat × Chan)) (ids : List Nat) (m : CommandResponse) :
    List (Nat × Chan) × List Nat × List Nat :=
  match ids with
  | [] => (subs, [], [])
  | id :: rest =>
    match lookupA subs id with
    | some ch =>
      let (sent, ch') := ch.send m
      let (subs', failed, delivered) := sendLoop (insertA subs id ch') rest m
      if sent then (subs', failed, id :: delivered)
      else (subs', id :: failed, delivered)
    | none => sendLoop subs rest m

/-- The reaping loop at the end of `Topic::publish`. -/
def reapLoop (name : String) : Broadcaster → List Nat → Broadcaster
  | b, [] => b
  | b, id :: rest => reapLoop name (b.removeSubscription name id).2 rest

/-- Embeds `Topic::publish` (body of the spawned task), also exposing the list
of ids the message was delivered to. -/
def Broadcaster.publishD (b : Broadcaster) (name : String) (m : CommandResponse) :
    Broadcaster × List Nat :=
  match lookupA b.topics name with
  | some ids =>
    let (subs', failed, delivered) := sendLoop b.subscriptions ids m
    (reapLoop name { b with subscriptions := subs' } failed, delivered)
  | none => (b, [])

/-- Embeds `Topic::publish`. -/
def Broadcaster.publish (b : Broadcaster) (name : String) (m : CommandResponse) :
    Broadcaster :=
  (b.publishD name m).1

/-- The two-map invariant of spec §4.5: an id sits in some topic's id-set
iff it is a key of the subscription map. -/
def Broadcaster.Linked (b : Broadcaster) : Prop :=
  ∀ id : Nat, (∃ t s, lookupA b.topics t = some s ∧ id ∈ s) ↔
    (lookupA b.subscriptions id).isSome

/-- An id belongs to the id-set of at most one topic. -/
def Broadcaster.UniqueTopic (b : Broadcaster) : Prop :=
  ∀ t1 t2 s1 s2 id, lookupA b.topics t1 = some s1 → lookupA b.topics t2 = some s2 →
    id ∈ s1 → id ∈ s2 → t1 = t2

/-! ### Operations of the broadcaster as a step relation -/

/-- The three `Topic` trait operations. -/
inductive BOp where
  | sub (name : String)
  | unsub (name : String) (id : Nat)
  | pub (name : String) (m : CommandResponse)

def BOp.step (b : Broadcaster) : BOp → Broadcaster
  | .sub name => (b.subscribe name).1
  | .unsub name id => (b.unsubscribe name id).2
  | .pub name m => b.publish name m

def runOps (b : Broadcaster) : List BOp → Broadcaster
  | [] => b
  | op :: ops => runOps (BOp.step b op) ops

/-- In the subscription map `subs`, the queue of id `i` (if it still
exists) begins with the id acknowledgment. -/
def AckFirstS (subs : List (Nat × Chan)) (i : Nat) : Prop :=
  ∀ ch, lookupA subs i = some ch → ∃ rest, ch.msgs = ackOf i :: rest

/-! ### Preservation of the two-map invariant -/

/-- Means `id` is registered, if at all, only under the topic `name`. -/
def OnlyUnder (topics : List (String × List Nat)) (name : String) (id : Nat) : Prop :=
  ∀ t s, lookupA topics t = some s → id ∈ s → t = name

/-- Side conditions under which an operation keeps the two maps linked:
a fresh id for `subscribe` (automatic before the 32-bit counter wraps)
and, for `unsubscribe`, a topic name matching the one the id is
registered under. -/
def BOp.ok (b : Broadcaster) : BOp → Prop
  | .sub _ => ∀ t s, lookupA b.topics t = some s → b.nextId ∉ s
  | .unsub name id => OnlyUnder b.topics name id
  | .pub _ _ => True

/-! ## Subscription id allocation (`src/service/topic.rs:16`)

`get_next_subscription_id` is `NEXT_ID.fetch_add(1, Ordering::Relaxed)`
on a process-wide `AtomicU32` initialised to 1: each call returns the
previous counter value and stores the successor, wrapping at `2 ^ 32`. -/

def getNextSubscriptionId (c : Nat) : Nat × Nat := (c, (c + 1) % U32MOD)

/-- The counter value before the `n`-th (0-indexed) call. -/
def counterAfter : Nat → Nat
  | 0 => 1
  | n + 1 => (getNextSubscriptionId (counterAfter n)).2

/-- The id returned by the `n`-th (0-indexed) `get_next_subscription_id`
call of the process. -/
def subscriptionIdAt (n : Nat) : Nat := (getNextSubscriptionId (counterAfter n)).1

/-! ## Frame codec (`src/network/frame.rs`, `src/network/compressor/mod.rs`)

Bytes are `Nat`s below 256; `prost` serialization and the three external
compression codecs are parameters (`WireCodec`, `Compressors`) whose
documented round-trip laws appear as hypotheses of the round-trip
theorems.  The `CompressorType::None` arms of `compress`/`decompress`,
which append nothing to the output buffer, are embedded exactly.  A
Rust slice-out-of-bounds or `get_u32` on a short buffer is the explicit
outcome `panicked`. -/

/-- Frame header length (`LEN_LEN`). -/
def LEN_LEN : Nat := 4

/-- Maximum frame size (`MAX_FRAME`), `2 ^ 30`. -/
def MAX_FRAME : Nat := 1073741824

/-- Compression threshold (`COMPRESSION_LIMIT`). -/
def COMPRESSION_LIMIT : Nat := 1436

/-- Bit position of the compressor tag (`COMPRESSION_BIT`). -/
def COMPRESSION_BIT : Nat := 30

/-- Mask clearing the top two header bits (`COMPRESSION_MASK`). -/
def COMPRESSION_MASK : Nat := 1073741823

/-- Value of `!COMPRESSION_MASK` on a 64-bit `usize`. -/
def USIZE_NOT_MASK : Nat := 18446744073709551615 - 1073741823

inductive CompressorType where
  | None
  | GZIP
  | LZ4
  | ZSTD
deriving DecidableEq, Repr

/-- The enum discriminant (`compressor_type as usize`). -/
def CompressorType.tag : CompressorType → Nat
  | .None => 0
  | .GZIP => 1
  | .LZ4 => 2
  | .ZSTD => 3

/-- Embeds `impl From<usize> for CompressorType` (`compressor/mod.rs:80`). -/
def CompressorType.fromUsize : Nat → CompressorType
  | 1 => .GZIP
  | 2 => .LZ4
  | 3 => .ZSTD
  | _ => .None

/-- One external compression codec (the gzip / lz4 / zstd crates): the
bytes it appends to the destination, or an I/O failure. -/
structure ExtCompressor where
  comp : List Nat → Except Unit (List Nat)
  decomp : List Nat → Except Unit (List Nat)

structure Compressors where
  gzip : ExtCompressor
  lz4 : ExtCompressor
  zstd : ExtCompressor

/-- Embeds `compress` (`compressor/mod.rs:25`): dispatch on the tag; the `None`
arm is `Ok(())` and appends nothing.  Failures of the external codecs
surface as `KvError::IoError`. -/
def compressApp (X : Compressors) (c : CompressorType) (src : List Nat) :
    Except KvError (List Nat) :=
  match c with
  | .GZIP => match X.gzip.comp src with
    | .ok a => .ok a
    | .error _ => .error .ioError
  | .LZ4 => match X.lz4.comp src with
    | .ok a => .ok a
    | .error _ => .error .ioError
  | .ZSTD => match X.zstd.comp src with
    | .ok a => .ok a
    | .error _ => .error .ioError
  | .None => .ok []

/-- Embeds `decompress` (`compressor/mod.rs:34`). -/
def decompressApp (X : Compressors) (c : CompressorType) (src : List Nat) :
    Except KvError (List Nat) :=
  match c with
  | .GZIP => match X.gzip.decomp src with
    | .ok a => .ok a
    | .error _ => .error .ioError
  | .LZ4 => match X.lz4.decomp src with
    | .ok a => .ok a
    | .error _ => .error .ioError
  | .ZSTD => match X.zstd.decomp src with
    | .ok a => .ok a
    | .error _ => .error .ioError
  | .None => .ok []

/-- The `prost` serializer of a message type (`Message::encode` /
`Message::decode`): a parameter of the embedding. -/
structure WireCodec (Msg : Type) where
  enc : Msg → List Nat
  dec : List Nat → Except Unit Msg

/-- Embeds `BytesMut::put_u32`: the four big-endian bytes of `n as u32`. -/
def u32beBytes (n : Nat) : List Nat :=
  [n / 16777216 % 256, n / 65536 % 256, n / 256 % 256, n % 256]

/-- Embeds `Buf::get_u32`: the value of four big-endian bytes. -/
def u32beVal (b0 b1 b2 b3 : Nat) : Nat :=
  ((b0 * 256 + b1) * 256 + b2) * 256 + b3

/-- Outcome of a Rust call that may return, error, or panic. -/
inductive RRes (α : Type) where
  | ok : α → RRes α
  | err : KvError → RRes α
  | panicked : RRes α
deriving DecidableEq, Repr

/-- Embeds `FrameCoder::encode_frame_with_compressor` (`frame.rs:31`), acting on
the caller's buffer: returns the `Result` and the final buffer contents.
In the compression branch the source splits off the payload after the
4-byte header, clears the buffer, compresses into the payload, writes
the combined header and re-joins. -/
def encodeFrameWithCompressor {Msg : Type} (W : WireCodec Msg) (X : Compressors)
    (m : Msg) (c : CompressorType) (buf : List Nat) :
    Except KvError Unit × List Nat :=
  let size := (W.enc m).length
  if size ≥ MAX_FRAME then (.error .frameError, buf)
  else
    let buf1 := buf ++ u32beBytes size
    if size > COMPRESSION_LIMIT then
      let bufTmp := W.enc m
      let payload0 := buf1.drop LEN_LEN
      -- buf.clear(); on a compressor error the cleared buffer is returned
      match compressApp X c bufTmp with
      | .error e => (.error e, [])
      | .ok app =>
        let payload := payload0 ++ app
        (.ok (), u32beBytes (payload.length ||| (c.tag <<< COMPRESSION_BIT)) ++ payload)
    else
      (.ok (), buf1 ++ W.enc m)

/-- Embeds `decode_header` (`frame.rs:95`). -/
def decodeHeader (header : Nat) : Nat × CompressorType :=
  (header &&& COMPRESSION_MASK,
   CompressorType.fromUsize ((header &&& USIZE_NOT_MASK) >>> COMPRESSION_BIT))

/-- Embeds `FrameCoder::decode_frame` (`frame.rs:71`): read the 4-byte header,
then decompress-and-decode or decode directly, advancing by `len`. -/
def decodeFrame {Msg : Type} (W : WireCodec Msg) (X : Compressors)
    (buf : List Nat) : RRes (Msg × List Nat) :=
  match buf with
  | b0 :: b1 :: b2 :: b3 :: rest =>
    let header := u32beVal b0 b1 b2 b3
    let len := (decodeHeader header).1
    let ct := (decodeHeader header).2
    if ct ≠ CompressorType.None then
      if rest.length < len then .panicked
      else
        match decompressApp X ct (rest.take len) with
        | .error e => .err e
        | .ok tmp =>
          match W.dec tmp with
          | .ok msg => .ok (msg, rest.drop len)
          | .error _ => .err .decodeError
    else
      if rest.length < len then .panicked
      else
        match W.dec (rest.take len) with
        | .ok msg => .ok (msg, rest.drop len)
        | .error _ => .err .decodeError
  | _ => .panicked

/-- The 4-byte header at the front of an encoded frame (0 when the
buffer is shorter than a header). -/
def frameHeader : List Nat → Nat
  | b0 :: b1 :: b2 :: b3 :: _ => u32beVal b0 b1 b2 b3
  | _ => 0

/-- The compressor tag carried in the top two bits of a frame's header. -/
def frameTag (buf : List Nat) : Nat := frameHeader buf >>> 30

/-- The identity serializer on raw byte lists (used to instantiate the
codec parameters at concrete inputs). -/
def idWire : WireCodec (List Nat) := ⟨fun s => s, fun s => .ok s⟩

/-- A serializer whose only message occupies `2 ^ 30` bytes (used to
exercise the frame-size ceiling without a gigabyte-sized literal). -/
def bigMsgWire : WireCodec Nat :=
  ⟨fun _ => List.replicate 1073741824 0, fun _ => .error ()⟩

/-- Identity compression codecs (lossless, hence satisfying the
round-trip laws). -/
def idComps : Compressors :=
  ⟨⟨fun s => .ok s, fun s => .ok s⟩,
   ⟨fun s => .ok s, fun s => .ok s⟩,
   ⟨fun s => .ok s, fun s => .ok s⟩⟩

/-! ## Client streaming start (`src/network/stream_result.rs`)

`execute_streaming` sends the request, half-closes, and hands the
response stream to `StreamResult::new`, which inspects only the first
element; the stream is embedded as the list of its elements.  The
`(&v[0]).try_into().unwrap()` of the source panics when the conversion
fails, and `id as u32` truncates the received `i64`. -/

structure StreamResult where
  id : Nat
  inner : List (Except KvError CommandResponse)
deriving Repr

/-- Embeds `StreamResult::new` (`stream_result.rs:14`). -/
def StreamResult.new (stream : List (Except KvError CommandResponse)) :
    RRes StreamResult :=
  match stream with
  | .ok r :: rest =>
    if r.status = 200 then
      match r.values with
      | [] => .err (.internal "Invalid stream")
      | v0 :: _ =>
        match v0.tryIntoI64 with
        | .ok i => .ok ⟨(i % (4294967296 : Int)).toNat, rest⟩
        | .error _ => .panicked
    else .err (.internal "Invalid stream")
  | _ => .err (.internal "Invalid stream")

/-! ## Theorems -/

theorem lookupA_removeA_self {κ α : Type} [DecidableEq κ] (l : List (κ × α)) (k : κ) :
    lookupA (removeA l k) k = none := by
  induction l with
  | nil => rfl
  | cons p t ih =>
    by_cases h : p.1 = k
    · simpa [removeA, h] using ih
    · simpa [removeA, lookupA, h] using ih

theorem removeA_cons {κ α : Type} [DecidableEq κ] (p : κ × α) (t : List (κ × α)) (k : κ) :
    removeA (p :: t) k = if p.1 = k then removeA t k else p :: removeA t k := by
  by_cases hp : p.1 = k <;> simp [removeA, List.filter_cons, hp]

theorem lookupA_removeA_ne {κ α : Type} [DecidableEq κ] (l : List (κ × α)) (k k' : κ)
    (h : k' ≠ k) : lookupA (removeA l k) k' = lookupA l k' := by
  induction l with
  | nil => rfl
  | cons p t ih =>
    rw [removeA_cons]
    by_cases hp : p.1 = k
    · have hne : ¬ p.1 = k' := by
        intro hk; exact h (by rw [← hk, hp])
      rw [if_pos hp, ih]
      simp only [lookupA]
      rw [if_neg hne]
    · rw [if_neg hp]
      simp only [lookupA]
      by_cases hk : p.1 = k' <;> simp [hk, ih]

theorem lookupA_insertA_self {κ α : Type} [DecidableEq κ] (l : List (κ × α)) (k : κ) (v : α) :
    lookupA (insertA l k v) k = some v := by
  simp [insertA, lookupA]

theorem lookupA_insertA_ne {κ α : Type} [DecidableEq κ] (l : List (κ × α)) (k k' : κ) (v : α)
    (h : k' ≠ k) : lookupA (insertA l k v) k' = lookupA l k' := by
  have : ¬ k = k' := fun hk => h hk.symm
  simp [insertA, lookupA, this]
  exact lookupA_removeA_ne l k k' h

/-! ## Status range of the command services -/

theorem Hget_execute_status (t k : String) (s : MemTable) :
    (Hget.execute t k s).1.status = 200 ∨ (Hget.execute t k s).1.status = 404 := by
  unfold Hget.execute
  rcases s.get t k with ⟨_ | v, s'⟩ <;>
    simp [CommandResponse.ofValue, CommandResponse.ofError]

theorem Hset_execute_status (t : String) (p : Option Kvpair) (s : MemTable) :
    (Hset.execute t p s).1.status = 200 := by
  unfold Hset.execute
  rcases p with _ | p
  · rfl
  · dsimp only
    split <;> rfl

theorem Hdel_execute_status (t k : String) (s : MemTable) :
    (Hdel.execute t k s).1.status = 200 := by
  unfold Hdel.execute
  rcases s.del t k with ⟨_ | v, s'⟩ <;> simp [CommandResponse.ofValue]

theorem Hexist_execute_status (t k : String) (s : MemTable) :
    (Hexist.execute t k s).1.status = 200 := by
  unfold Hexist.execute
  rcases s.containsKV t k with ⟨b, s'⟩
  simp [CommandResponse.ofValue]

theorem Hgetall_execute_status (t : String) (s : MemTable) :
    (Hgetall.execute t s).1.status = 200 := by
  unfold Hgetall.execute
  rcases s.getAll t with ⟨ps, s'⟩
  simp [CommandResponse.ofPairs]

theorem Hmget_execute_status (t : String) (ks : List String) (s : MemTable) :
    (Hmget.execute t ks s).1.status = 200 := by
  unfold Hmget.execute
  rcases Hmget.collect t ks s with ⟨vs, s'⟩
  simp [CommandResponse.ofValues]

theorem Hmset_execute_status (t : String) (ps : List Kvpair) (s : MemTable) :
    (Hmset.execute t ps s).1.status = 200 := by
  unfold Hmset.execute
  rcases Hmset.collect t ps s with ⟨vs, s'⟩
  simp [CommandResponse.ofValues]

theorem Hmdel_execute_status (t : String) (ks : List String) (s : MemTable) :
    (Hmdel.execute t ks s).1.status = 200 := by
  unfold Hmdel.execute
  rcases Hmdel.collect t ks s with ⟨vs, s'⟩
  simp [CommandResponse.ofValues]

theorem Hmexist_execute_status (t : String) (ks : List String) (s : MemTable) :
    (Hmexist.execute t ks s).1.status = 200 := by
  unfold Hmexist.execute
  rcases Hmexist.collect t ks s with ⟨vs, s'⟩
  simp [CommandResponse.ofValues]

/-- C8.  Dispatching a `CommandRequest` whose `request_data` is `None`
produces a response with status 400 whose message is
`"Command is invalid Request has no data"` (so it contains
`"Request has no data"`), with empty `values` and `pairs`, and the store
is untouched; conversely, `dispatch` answers status 400 only for such a
request — no `H*` operation on the store ever produces a 400. -/
theorem dispatch_none_is_400_and_only_400 :
    (∀ store : MemTable,
      dispatch ⟨none⟩ store =
        ({ status := 400, message := "Command is invalid " ++ "Request has no data",
           values := [], pairs := [] }, store)) ∧
    (∀ (cmd : CommandRequest) (store : MemTable),
      (dispatch cmd store).1.status = 400 → cmd.requestData = none) := by
  constructor
  · intro store
    rfl
  · intro cmd store h
    rcases cmd with ⟨_ | d⟩
    · rfl
    exfalso
    rcases d with ⟨t, k⟩ | t | ⟨t, p⟩ | ⟨t, k⟩ | ⟨t, k⟩ | ⟨t, ks⟩ | ⟨t, ps⟩ | ⟨t, ks⟩ | ⟨t, ks⟩
    · rcases Hget_execute_status t k store with h2 | h2 <;>
        simp only [dispatch] at h <;> omega
    · have h2 := Hgetall_execute_status t store
      simp only [dispatch] at h; omega
    · have h2 := Hset_execute_status t p store
      simp only [dispatch] at h; omega
    · have h2 := Hdel_execute_status t k store
      simp only [dispatch] at h; omega
    · have h2 := Hexist_execute_status t k store
      simp only [dispatch] at h; omega
    · have h2 := Hmget_execute_status t ks store
      simp only [dispatch] at h; omega
    · have h2 := Hmset_execute_status t ps store
      simp only [dispatch] at h; omega
    · have h2 := Hmdel_execute_status t ks store
      simp only [dispatch] at h; omega
    · have h2 := Hmexist_execute_status t ks store
      simp only [dispatch] at h; omega

/-- Witness for C8: the only-400 direction applied to the concrete
no-data request over the empty store. -/
theorem dispatch_none_is_400_and_only_400_witness :
    (dispatch ⟨none⟩ MemTable.new).1.status = 400 ∧
      (⟨none⟩ : CommandRequest).requestData = none :=
  ⟨by rfl,
    dispatch_none_is_400_and_only_400.2 ⟨none⟩ MemTable.new (by rfl)⟩

/-- C10.  An `Hset` whose `pair` field is `None` answers status 200 with
the single default (absent) value — it is not rejected with a 400 — and
leaves the store exactly as it was. -/
theorem dispatch_hset_no_pair (t : String) (store : MemTable) :
    dispatch ⟨some (.hset t none)⟩ store =
      ({ status := 200, message := "", values := [Value.defaultV], pairs := [] },
        store) := by
  rfl

/-! ### Facts about the fan-out and reaping loops -/

theorem sendLoop_delivered_subset (subs : List (Nat × Chan)) (ids : List Nat)
    (m : CommandResponse) : ∀ x ∈ (sendLoop subs ids m).2.2, x ∈ ids := by
  induction ids generalizing subs with
  | nil => intro x hx; simp [sendLoop] at hx
  | cons id rest ih =>
    intro x hx
    simp only [sendLoop] at hx
    rcases hch : lookupA subs id with _ | ch
    · rw [hch] at hx
      exact List.mem_cons_of_mem _ (ih subs x hx)
    · rw [hch] at hx
      dsimp only at hx
      by_cases hs : (ch.send m).1
      · rw [if_pos hs] at hx
        rcases List.mem_cons.mp hx with h | h
        · exact h ▸ List.mem_cons_self _ _
        · exact List.mem_cons_of_mem _ (ih _ x h)
      · rw [if_neg hs] at hx
        exact List.mem_cons_of_mem _ (ih _ x hx)

theorem sendLoop_lookup_none (subs : List (Nat × Chan)) (ids : List Nat)
    (m : CommandResponse) (id : Nat) (h : lookupA subs id = none) :
    lookupA (sendLoop subs ids m).1 id = none := by
  induction ids generalizing subs with
  | nil => simpa [sendLoop] using h
  | cons i rest ih =>
    simp only [sendLoop]
    rcases hch : lookupA subs i with _ | ch
    · exact ih subs h
    · have hne : id ≠ i := by
        intro he; rw [he, hch] at h; cases h
      dsimp only
      have h' : lookupA (insertA subs i (ch.send m).2) id = none := by
        rw [lookupA_insertA_ne _ _ _ _ hne]; exact h
      by_cases hs : (ch.send m).1
      · rw [if_pos hs]; exact ih _ h'
      · rw [if_neg hs]; exact ih _ h'

theorem removeSubscription_lookup_none (b : Broadcaster) (name : String)
    (i id : Nat) (h : lookupA b.subscriptions id = none) :
    lookupA ((b.removeSubscription name i).2).subscriptions id = none := by
  simp only [Broadcaster.removeSubscription]
  by_cases he : i = id
  · subst he; exact lookupA_removeA_self _ _
  · rw [lookupA_removeA_ne _ _ _ (fun hx => he hx.symm)]
    exact h

theorem reapLoop_lookup_none (name : String) (l : List Nat) (b : Broadcaster)
    (id : Nat) (h : lookupA b.subscriptions id = none) :
    lookupA ((reapLoop name b l).subscriptions) id = none := by
  induction l generalizing b with
  | nil => simpa [reapLoop] using h
  | cons i rest ih =>
    simp only [reapLoop]
    exact ih _ (removeSubscription_lookup_none b name i id h)

theorem mem_filter_ne_self (s : List Nat) (id : Nat) :
    id ∉ s.filter (fun x => if x = id then false else true) := by
  intro h
  rcases List.mem_filter.mp h with ⟨_, hb⟩
  simp at hb

/-- C4.  Once `unsubscribe(T, id)` answers `Ok(id)`, the id's sender is
gone from the subscription map, a subsequent `publish(T, _)` delivers
nothing to it (and still leaves it absent from the map), and a second
`unsubscribe(T, id)` answers the `NotFound` error. -/
theorem unsubscribe_semantics (b b' : Broadcaster) (T : String) (id : Nat)
    (h : b.unsubscribe T id = (.ok id, b')) :
    lookupA b'.subscriptions id = none ∧
    (∀ m : CommandResponse,
      id ∉ (b'.publishD T m).2 ∧
      lookupA ((b'.publishD T m).1).subscriptions id = none) ∧
    (b'.unsubscribe T id).1 =
      .error (.notFound ("subscription: " ++ toString id)) := by
  have hb' : b' = (b.removeSubscription T id).2 := by
    rcases hrs : b.removeSubscription T id with ⟨r, b2⟩
    simp only [Broadcaster.unsubscribe, hrs] at h
    rcases r with _ | i <;> simp only [Prod.mk.injEq] at h
    · exact Except.noConfusion h.1
    · exact h.2.symm
  have hsub : b'.subscriptions = removeA b.subscriptions id := by
    rw [hb']; simp only [Broadcaster.removeSubscription]
  have hnone : lookupA b'.subscriptions id = none := by
    rw [hsub]; exact lookupA_removeA_self _ _
  refine ⟨hnone, ?_, ?_⟩
  · intro m
    constructor
    · intro hdel
      simp only [Broadcaster.publishD] at hdel
      rcases hids : lookupA b'.topics T with _ | ids
      · rw [hids] at hdel; simp at hdel
      · rw [hids] at hdel
        dsimp only at hdel
        have hin : id ∈ ids := sendLoop_delivered_subset _ _ _ id hdel
        -- after `remove_subscription(T, id)`, the set stored under `T`
        -- cannot contain `id`
        rw [hb'] at hids
        simp only [Broadcaster.removeSubscription] at hids
        rcases hs0 : lookupA b.topics T with _ | s0
        · rw [hs0] at hids
          dsimp only at hids
          rw [hs0] at hids
          cases hids
        · rw [hs0] at hids
          dsimp only at hids
          by_cases hemp : s0.filter (fun x => if x = id then false else true) = []
          · rw [if_pos hemp] at hids
            rw [lookupA_removeA_self] at hids; cases hids
          · rw [if_neg hemp] at hids
            rw [lookupA_insertA_self] at hids
            cases hids
            exact mem_filter_ne_self s0 id hin
    · simp only [Broadcaster.publishD]
      rcases hids : lookupA b'.topics T with _ | ids
      · exact hnone
      · dsimp only
        exact reapLoop_lookup_none T _ _ id (sendLoop_lookup_none _ _ _ id hnone)
  · simp only [Broadcaster.unsubscribe, Broadcaster.removeSubscription, hnone]
    rfl

/-- Witness for C4: subscribe to `"lobby"` (id 1), unsubscribe it, and
observe the three guarantees at the concrete state. -/
theorem unsubscribe_semantics_witness :
    lookupA ((((Broadcaster.empty.subscribe "lobby").1.unsubscribe "lobby" 1).2).subscriptions)
        1 = none ∧
    1 ∉ ((((Broadcaster.empty.subscribe "lobby").1.unsubscribe "lobby" 1).2).publishD
        "lobby" (CommandResponse.ofValue Value.defaultV)).2 ∧
    ((((Broadcaster.empty.subscribe "lobby").1.unsubscribe "lobby" 1).2).unsubscribe
        "lobby" 1).1 = .error (.notFound ("subscription: " ++ toString 1)) := by
  have h := unsubscribe_semantics (Broadcaster.empty.subscribe "lobby").1
    (((Broadcaster.empty.subscribe "lobby").1.unsubscribe "lobby" 1).2) "lobby" 1 (by rfl)
  exact ⟨h.1, (h.2.1 (CommandResponse.ofValue Value.defaultV)).1, h.2.2⟩

theorem Chan.send_msgs (ch : Chan) (m : CommandResponse) :
    ∃ tail, ((ch.send m).2).msgs = ch.msgs ++ tail := by
  by_cases h : ch.closed
  · exact ⟨[], by simp [Chan.send, h]⟩
  · exact ⟨[m], by simp [Chan.send, h]⟩

theorem ackFirstS_insertA (subs : List (Nat × Chan)) (i j : Nat) (ch : Chan)
    (h : AckFirstS subs i)
    (hch : j = i → ∃ rest, ch.msgs = ackOf i :: rest) :
    AckFirstS (insertA subs j ch) i := by
  intro ch' hch'
  by_cases hji : j = i
  · rw [hji, lookupA_insertA_self] at hch'
    cases hch'
    exact hch hji
  · rw [lookupA_insertA_ne _ _ _ _ (fun hx => hji hx.symm)] at hch'
    exact h ch' hch'

theorem ackFirstS_removeA (subs : List (Nat × Chan)) (i j : Nat)
    (h : AckFirstS subs i) : AckFirstS (removeA subs j) i := by
  intro ch hch
  by_cases hji : j = i
  · rw [hji, lookupA_removeA_self] at hch; cases hch
  · rw [lookupA_removeA_ne _ _ _ (fun hx => hji hx.symm)] at hch
    exact h ch hch

theorem ackFirstS_sendLoop (subs : List (Nat × Chan)) (ids : List Nat)
    (m : CommandResponse) (i : Nat) (h : AckFirstS subs i) :
    AckFirstS (sendLoop subs ids m).1 i := by
  induction ids generalizing subs with
  | nil => simpa [sendLoop] using h
  | cons id rest ih =>
    simp only [sendLoop]
    rcases hch : lookupA subs id with _ | ch
    · exact ih subs h
    · dsimp only
      have hnext : AckFirstS (insertA subs id (ch.send m).2) i := by
        refine ackFirstS_insertA subs i id (ch.send m).2 h (fun hji => ?_)
        rcases h ch (hji ▸ hch) with ⟨r0, hr0⟩
        rcases Chan.send_msgs ch m with ⟨tail, htail⟩
        exact ⟨r0 ++ tail, by rw [htail, hr0]; simp⟩
      by_cases hs : (ch.send m).1
      · rw [if_pos hs]; exact ih _ hnext
      · rw [if_neg hs]; exact ih _ hnext

theorem ackFirstS_removeSubscription (b : Broadcaster) (name : String) (j i : Nat)
    (h : AckFirstS b.subscriptions i) :
    AckFirstS ((b.removeSubscription name j).2).subscriptions i := by
  simp only [Broadcaster.removeSubscription]
  exact ackFirstS_removeA _ i j h

theorem ackFirstS_reapLoop (name : String) (l : List Nat) (b : Broadcaster) (i : Nat)
    (h : AckFirstS b.subscriptions i) :
    AckFirstS ((reapLoop name b l).subscriptions) i := by
  induction l generalizing b with
  | nil => simpa [reapLoop] using h
  | cons j rest ih =>
    simp only [reapLoop]
    exact ih _ (ackFirstS_removeSubscription b name j i h)

theorem ackFirstS_step (b : Broadcaster) (op : BOp) (i : Nat)
    (h : AckFirstS b.subscriptions i) :
    AckFirstS ((BOp.step b op).subscriptions) i := by
  rcases op with name | ⟨name, j⟩ | ⟨name, m⟩
  · simp only [BOp.step, Broadcaster.subscribe]
    refine ackFirstS_insertA _ i _ _ h (fun hji => ⟨[], ?_⟩)
    rw [hji]
  · simp only [BOp.step]
    rcases hrs : b.removeSubscription name j with ⟨r, b2⟩
    have h2 := ackFirstS_removeSubscription b name j i h
    rw [hrs] at h2
    rcases r with _ | x <;> simp only [Broadcaster.unsubscribe, hrs] <;> exact h2
  · simp only [BOp.step, Broadcaster.publish, Broadcaster.publishD]
    rcases hids : lookupA b.topics name with _ | ids
    · exact h
    · dsimp only
      exact ackFirstS_reapLoop name _ _ i (ackFirstS_sendLoop _ _ _ i h)

theorem ackFirstS_runOps (ops : List BOp) (b : Broadcaster) (i : Nat)
    (h : AckFirstS b.subscriptions i) :
    AckFirstS ((runOps b ops).subscriptions) i := by
  induction ops generalizing b with
  | nil => simpa [runOps] using h
  | cons op ops ih =>
    simp only [runOps]
    exact ih _ (ackFirstS_step b op i h)

/-- C5.  `subscribe` allocates `id`, sends exactly the single
acknowledgment `CommandResponse { status: 200, message: "", values:
[Integer(id)], pairs: [] }` into the fresh channel — so the queue right
after subscribing is `[ack id]` — and under every later sequence of
broadcaster operations the queue of that subscription still starts with
this acknowledgment: every published message is delivered after it. -/
theorem subscribe_sends_ack_first (b b' : Broadcaster) (name : String) (id : Nat)
    (h : b.subscribe name = (b', id)) :
    id = b.nextId ∧
    lookupA b'.subscriptions id = some { msgs := [ackOf id], closed := false } ∧
    ackOf id = { status := 200, message := "",
                 values := [⟨some (.vinteger (Int.ofNat id))⟩], pairs := [] } ∧
    ∀ (ops : List BOp) (ch : Chan),
      lookupA ((runOps b' ops).subscriptions) id = some ch →
      ∃ rest, ch.msgs = ackOf id :: rest := by
  have hid : id = b.nextId := by
    have := congrArg Prod.snd h
    simpa [Broadcaster.subscribe] using this.symm
  have hb' : b' = (b.subscribe name).1 := by
    have := congrArg Prod.fst h
    exact this.symm
  have hlook : lookupA b'.subscriptions id = some { msgs := [ackOf id], closed := false } := by
    rw [hb', hid]
    simp only [Broadcaster.subscribe]
    exact lookupA_insertA_self _ _ _
  refine ⟨hid, hlook, rfl, ?_⟩
  intro ops ch hch
  have h0 : AckFirstS b'.subscriptions id := by
    intro ch0 hch0
    rw [hlook] at hch0
    cases hch0
    exact ⟨[], rfl⟩
  exact ackFirstS_runOps ops b' id h0 ch hch

/-- Witness for C5: the first subscription on the empty broadcaster, with
one follow-up publish; the queue still starts with the acknowledgment. -/
theorem subscribe_sends_ack_first_witness :
    (Broadcaster.empty.subscribe "chat").2 = 1 ∧
    lookupA ((Broadcaster.empty.subscribe "chat").1).subscriptions 1 =
      some { msgs := [ackOf 1], closed := false } := by
  have h := subscribe_sends_ack_first Broadcaster.empty
    (Broadcaster.empty.subscribe "chat").1 "chat"
    (Broadcaster.empty.subscribe "chat").2 (by rfl)
  exact ⟨by rfl, by rw [← h.1] at h; exact h.2.1⟩

/-! ### Lookup characterizations of the broadcaster operations -/

theorem mem_filter_ne (s : List Nat) (id y : Nat) :
    y ∈ s.filter (fun x => if x = id then false else true) ↔ y ∈ s ∧ y ≠ id := by
  rw [List.mem_filter]
  by_cases h : y = id <;> simp [h]

theorem subscribe_topics_lookup (b : Broadcaster) (name t : String) :
    lookupA (((b.subscribe name).1).topics) t =
      if t = name then
        some (match lookupA b.topics name with
              | some s => if b.nextId ∈ s then s else s ++ [b.nextId]
              | none => [b.nextId])
      else lookupA b.topics t := by
  simp only [Broadcaster.subscribe]
  by_cases ht : t = name
  · rw [if_pos ht, ht, lookupA_insertA_self]
    rcases h : lookupA b.topics name with _ | s <;> simp
  · rw [if_neg ht, lookupA_insertA_ne _ _ _ _ ht]

theorem subscribe_subscriptions_lookup (b : Broadcaster) (name : String) (i : Nat) :
    lookupA (((b.subscribe name).1).subscriptions) i =
      if i = b.nextId then some { msgs := [ackOf b.nextId], closed := false }
      else lookupA b.subscriptions i := by
  simp only [Broadcaster.subscribe]
  by_cases hi : i = b.nextId
  · rw [if_pos hi, hi, lookupA_insertA_self]
  · rw [if_neg hi, lookupA_insertA_ne _ _ _ _ hi]

theorem removeSubscription_topics_lookup (b : Broadcaster) (name : String) (id : Nat)
    (t : String) :
    lookupA (((b.removeSubscription name id).2).topics) t =
      if t = name then
        match lookupA b.topics name with
        | some s =>
          if s.filter (fun x => if x = id then false else true) = [] then none
          else some (s.filter (fun x => if x = id then false else true))
        | none => none
      else lookupA b.topics t := by
  simp only [Broadcaster.removeSubscription]
  rcases h : lookupA b.topics name with _ | s
  · dsimp only
    by_cases ht : t = name
    · rw [if_pos ht, ht, h]
    · rw [if_neg ht]
  · dsimp only
    by_cases he : s.filter (fun x => if x = id then false else true) = []
    · rw [if_pos he]
      by_cases ht : t = name
      · rw [if_pos ht, ht, lookupA_removeA_self, if_pos he]
      · rw [if_neg ht, lookupA_removeA_ne _ _ _ ht]
    · rw [if_neg he]
      by_cases ht : t = name
      · rw [if_pos ht, ht, lookupA_insertA_self, if_neg he]
      · rw [if_neg ht, lookupA_insertA_ne _ _ _ _ ht]

theorem removeSubscription_subscriptions_lookup (b : Broadcaster) (name : String)
    (id : Nat) (i : Nat) :
    lookupA (((b.removeSubscription name id).2).subscriptions) i =
      if i = id then none else lookupA b.subscriptions i := by
  simp only [Broadcaster.removeSubscription]
  by_cases hi : i = id
  · rw [if_pos hi, hi, lookupA_removeA_self]
  · rw [if_neg hi, lookupA_removeA_ne _ _ _ hi]

theorem sendLoop_lookup_isSome (subs : List (Nat × Chan)) (ids : List Nat)
    (m : CommandResponse) (i : Nat) :
    (lookupA (sendLoop subs ids m).1 i).isSome = (lookupA subs i).isSome := by
  induction ids generalizing subs with
  | nil => simp [sendLoop]
  | cons id rest ih =>
    simp only [sendLoop]
    rcases hch : lookupA subs id with _ | ch
    · exact ih subs
    · dsimp only
      have hins : (lookupA (insertA subs id (ch.send m).2) i).isSome =
          (lookupA subs i).isSome := by
        by_cases hi : i = id
        · rw [hi, lookupA_insertA_self, hch]; rfl
        · rw [lookupA_insertA_ne _ _ _ _ hi]
      by_cases hs : (ch.send m).1
      · rw [if_pos hs]
        rw [ih (insertA subs id (ch.send m).2), hins]
      · rw [if_neg hs]
        rw [ih (insertA subs id (ch.send m).2), hins]

theorem sendLoop_failed_subset (subs : List (Nat × Chan)) (ids : List Nat)
    (m : CommandResponse) : ∀ x ∈ (sendLoop subs ids m).2.1, x ∈ ids := by
  induction ids generalizing subs with
  | nil => intro x hx; simp [sendLoop] at hx
  | cons id rest ih =>
    intro x hx
    simp only [sendLoop] at hx
    rcases hch : lookupA subs id with _ | ch
    · rw [hch] at hx
      exact List.mem_cons_of_mem _ (ih subs x hx)
    · rw [hch] at hx
      dsimp only at hx
      by_cases hs : (ch.send m).1
      · rw [if_pos hs] at hx
        exact List.mem_cons_of_mem _ (ih _ x hx)
      · rw [if_neg hs] at hx
        rcases List.mem_cons.mp hx with h | h
        · exact h ▸ List.mem_cons_self _ _
        · exact List.mem_cons_of_mem _ (ih _ x h)

theorem removeSubscription_topics_subset (b : Broadcaster) (name : String) (id : Nat)
    (t : String) (s' : List Nat)
    (h : lookupA (((b.removeSubscription name id).2).topics) t = some s') :
    ∃ s0, lookupA b.topics t = some s0 ∧ ∀ x ∈ s', x ∈ s0 := by
  rw [removeSubscription_topics_lookup] at h
  by_cases ht : t = name
  · rw [if_pos ht] at h
    rcases h0 : lookupA b.topics name with _ | s <;> rw [h0] at h <;> dsimp only at h
    · cases h
    · by_cases he : s.filter (fun x => if x = id then false else true) = []
      · rw [if_pos he] at h; cases h
      · rw [if_neg he] at h
        cases h
        exact ⟨s, ht ▸ h0, fun x hx => ((mem_filter_ne s id x).mp hx).1⟩
  · rw [if_neg ht] at h
    exact ⟨s', h, fun x hx => hx⟩

theorem removeSubscription_onlyUnder (b : Broadcaster) (name : String) (id : Nat)
    (name' : String) (id' : Nat) (h : OnlyUnder b.topics name' id') :
    OnlyUnder (((b.removeSubscription name id).2).topics) name' id' := by
  intro t s' hts hm
  rcases removeSubscription_topics_subset b name id t s' hts with ⟨s0, h0, hsub⟩
  exact h t s0 h0 (hsub _ hm)

theorem removeSubscription_preserves (b : Broadcaster) (name : String) (id : Nat)
    (hL : b.Linked) (hU : b.UniqueTopic) (ho : OnlyUnder b.topics name id) :
    ((b.removeSubscription name id).2).Linked ∧
    ((b.removeSubscription name id).2).UniqueTopic := by
  constructor
  · intro i
    rw [removeSubscription_subscriptions_lookup]
    by_cases hi : i = id
    · rw [if_pos hi]
      constructor
      · rintro ⟨t, s2, hts, hm⟩
        exfalso
        rw [removeSubscription_topics_lookup] at hts
        by_cases ht : t = name
        · rw [if_pos ht] at hts
          rcases h0 : lookupA b.topics name with _ | s <;> rw [h0] at hts <;>
            dsimp only at hts
          · cases hts
          · by_cases he : s.filter (fun x => if x = id then false else true) = []
            · rw [if_pos he] at hts; cases hts
            · rw [if_neg he] at hts
              cases hts
              exact ((mem_filter_ne s id i).mp hm).2 hi
        · rw [if_neg ht] at hts
          exact ht (ho t s2 hts (hi ▸ hm))
      · intro h; cases h
    · rw [if_neg hi]
      constructor
      · rintro ⟨t, s2, hts, hm⟩
        rcases removeSubscription_topics_subset b name id t s2 hts with ⟨s0, h0, hsub⟩
        exact (hL i).mp ⟨t, s0, h0, hsub _ hm⟩
      · intro hs
        rcases (hL i).mpr hs with ⟨t, s, hts, hm⟩
        by_cases ht : t = name
        · subst ht
          have hmem' : i ∈ s.filter (fun x => if x = id then false else true) :=
            (mem_filter_ne s id i).mpr ⟨hm, hi⟩
          refine ⟨t, s.filter (fun x => if x = id then false else true), ?_, hmem'⟩
          rw [removeSubscription_topics_lookup, if_pos rfl, hts]
          dsimp only
          rw [if_neg (List.ne_nil_of_mem hmem')]
        · refine ⟨t, s, ?_, hm⟩
          rw [removeSubscription_topics_lookup, if_neg ht]
          exact hts
  · intro t1 t2 s1 s2 i h1 h2 m1 m2
    rcases removeSubscription_topics_subset b name id t1 s1 h1 with ⟨s01, ho1, hs1⟩
    rcases removeSubscription_topics_subset b name id t2 s2 h2 with ⟨s02, ho2, hs2⟩
    exact hU t1 t2 s01 s02 i ho1 ho2 (hs1 _ m1) (hs2 _ m2)

theorem subscribe_preserves (b : Broadcaster) (name : String)
    (hL : b.Linked) (hU : b.UniqueTopic)
    (hfresh : ∀ t s, lookupA b.topics t = some s → b.nextId ∉ s) :
    ((b.subscribe name).1).Linked ∧ ((b.subscribe name).1).UniqueTopic := by
  constructor
  · intro i
    rw [subscribe_subscriptions_lookup]
    by_cases hi : i = b.nextId
    · rw [if_pos hi]
      refine iff_of_true ?_ (by simp)
      refine ⟨name, _, by rw [subscribe_topics_lookup, if_pos rfl], ?_⟩
      rcases h0 : lookupA b.topics name with _ | s <;> dsimp only
      · rw [hi]
        exact List.mem_singleton.mpr rfl
      · by_cases hm : b.nextId ∈ s
        · rw [if_pos hm, hi]
          exact hm
        · rw [if_neg hm, hi]
          exact List.mem_append_right s (List.mem_singleton.mpr rfl)
    · rw [if_neg hi]
      constructor
      · rintro ⟨t, s2, hts, hm⟩
        rw [subscribe_topics_lookup] at hts
        by_cases ht : t = name
        · rw [if_pos ht] at hts
          cases hts
          rcases h0 : lookupA b.topics name with _ | s <;> rw [h0] at hm <;>
            dsimp only at hm
          · exact absurd (List.mem_singleton.mp hm) hi
          · have hms : i ∈ s := by
              by_cases hc : b.nextId ∈ s
              · rwa [if_pos hc] at hm
              · rw [if_neg hc] at hm
                rcases List.mem_append.mp hm with h | h
                · exact h
                · exact absurd (List.mem_singleton.mp h) hi
            exact (hL i).mp ⟨name, s, h0, hms⟩
        · rw [if_neg ht] at hts
          exact (hL i).mp ⟨t, s2, hts, hm⟩
      · intro hs
        rcases (hL i).mpr hs with ⟨t, s, hts, hm⟩
        by_cases ht : t = name
        · subst ht
          refine ⟨t, _, by rw [subscribe_topics_lookup, if_pos rfl], ?_⟩
          rw [hts]
          dsimp only
          by_cases hc : b.nextId ∈ s
          · rwa [if_pos hc]
          · rw [if_neg hc]
            exact List.mem_append_left _ hm
        · refine ⟨t, s, ?_, hm⟩
          rw [subscribe_topics_lookup, if_neg ht]
          exact hts
  · intro t1 t2 s1 s2 i h1 h2 m1 m2
    rw [subscribe_topics_lookup] at h1 h2
    have memOld : ∀ s',
        some (match lookupA b.topics name with
              | some s => if b.nextId ∈ s then s else s ++ [b.nextId]
              | none => [b.nextId]) = some s' →
        i ∈ s' → i ≠ b.nextId → ∃ s0, lookupA b.topics name = some s0 ∧ i ∈ s0 := by
      intro s' h hm hne
      cases h
      rcases h0 : lookupA b.topics name with _ | s <;> rw [h0] at hm <;> dsimp only at hm
      · exact absurd (List.mem_singleton.mp hm) hne
      · refine ⟨s, rfl, ?_⟩
        by_cases hc : b.nextId ∈ s
        · rwa [if_pos hc] at hm
        · rw [if_neg hc] at hm
          rcases List.mem_append.mp hm with h | h
          · exact h
          · exact absurd (List.mem_singleton.mp h) hne
    by_cases ht1 : t1 = name <;> by_cases ht2 : t2 = name
    · rw [ht1, ht2]
    · -- t1 is the subscribed topic, t2 is an old one
      rw [if_neg ht2] at h2
      by_cases hi : i = b.nextId
      · exact absurd (hi ▸ m2) (hfresh t2 s2 h2)
      · rw [if_pos ht1] at h1
        rcases memOld s1 h1 m1 hi with ⟨s0, h0, hm0⟩
        exact ht1.trans (hU name t2 s0 s2 i h0 h2 hm0 m2)
    · rw [if_neg ht1] at h1
      by_cases hi : i = b.nextId
      · exact absurd (hi ▸ m1) (hfresh t1 s1 h1)
      · rw [if_pos ht2] at h2
        rcases memOld s2 h2 m2 hi with ⟨s0, h0, hm0⟩
        exact (hU t1 name s1 s0 i h1 h0 m1 hm0).trans ht2.symm
    · rw [if_neg ht1] at h1
      rw [if_neg ht2] at h2
      exact hU t1 t2 s1 s2 i h1 h2 m1 m2

theorem reapLoop_preserves (name : String) (l : List Nat) :
    ∀ b : Broadcaster, b.Linked → b.UniqueTopic →
    (∀ x ∈ l, OnlyUnder b.topics name x) →
    (reapLoop name b l).Linked ∧ (reapLoop name b l).UniqueTopic := by
  induction l with
  | nil => intro b hL hU _; exact ⟨hL, hU⟩
  | cons id rest ih =>
    intro b hL hU hall
    simp only [reapLoop]
    have hp := removeSubscription_preserves b name id hL hU
      (hall id (List.mem_cons_self _ _))
    exact ih _ hp.1 hp.2
      (fun x hx => removeSubscription_onlyUnder b name id name x
        (hall x (List.mem_cons_of_mem _ hx)))

theorem publish_preserves (b : Broadcaster) (name : String) (m : CommandResponse)
    (hL : b.Linked) (hU : b.UniqueTopic) :
    (b.publish name m).Linked ∧ (b.publish name m).UniqueTopic := by
  simp only [Broadcaster.publish, Broadcaster.publishD]
  rcases hids : lookupA b.topics name with _ | ids
  · exact ⟨hL, hU⟩
  · rcases hsl : sendLoop b.subscriptions ids m with ⟨subs', failed, delivered⟩
    dsimp only
    rw [hsl]
    dsimp only
    have hL1 : Broadcaster.Linked ⟨b.topics, subs', b.nextId⟩ := by
      intro i
      have hq : (lookupA subs' i).isSome = (lookupA b.subscriptions i).isSome := by
        have := sendLoop_lookup_isSome b.subscriptions ids m i
        rw [hsl] at this
        exact this
      show (∃ t s, lookupA b.topics t = some s ∧ i ∈ s) ↔ (lookupA subs' i).isSome
      rw [hq]
      exact hL i
    have hU1 : Broadcaster.UniqueTopic ⟨b.topics, subs', b.nextId⟩ := hU
    have hall : ∀ x ∈ failed, OnlyUnder b.topics name x := by
      intro x hx t s hts hm
      have hxids : x ∈ ids := by
        have := sendLoop_failed_subset b.subscriptions ids m x
        rw [hsl] at this
        exact this hx
      exact hU t name s ids x hts hids hm hxids
    exact reapLoop_preserves name failed ⟨b.topics, subs', b.nextId⟩ hL1 hU1 hall

/-- C3 (amended).  `subscribe` (with an id not already present in some
topic's set) and `publish` (with its reaping) preserve the two-map
invariant — an id lies in some topic's id-set iff it keys the
subscription map — together with the per-id topic uniqueness it needs;
`unsubscribe` preserves it provided its topic name is the one the id is
registered under.  (Unsubscribing under a different topic name breaks
the invariant: see the counterexample.) -/
theorem broadcaster_two_map_invariant (b : Broadcaster) (op : BOp)
    (hL : b.Linked) (hU : b.UniqueTopic) (hok : BOp.ok b op) :
    (BOp.step b op).Linked ∧ (BOp.step b op).UniqueTopic := by
  rcases op with name | ⟨name, id⟩ | ⟨name, m⟩
  · exact subscribe_preserves b name hL hU hok
  · have hstep : BOp.step b (.unsub name id) = (b.removeSubscription name id).2 := by
      simp only [BOp.step]
      rcases hrs : b.removeSubscription name id with ⟨_ | i, b2⟩ <;>
        simp [Broadcaster.unsubscribe, hrs]
    rw [hstep]
    exact removeSubscription_preserves b name id hL hU hok
  · exact publish_preserves b name m hL hU

/-- Witness for C3 (amended): the first subscribe on the empty
broadcaster, with its side conditions discharged concretely. -/
theorem broadcaster_two_map_invariant_witness :
    (BOp.step Broadcaster.empty (.sub "lobby")).Linked ∧
    (BOp.step Broadcaster.empty (.sub "lobby")).UniqueTopic := by
  have hL : Broadcaster.empty.Linked := by
    intro i
    constructor
    · rintro ⟨t, s, hts, _⟩
      exact Option.noConfusion hts
    · intro h
      exact Bool.noConfusion h
  have hU : Broadcaster.empty.UniqueTopic := by
    intro t1 t2 s1 s2 i h1 h2 _ _
    exact Option.noConfusion h1
  have hok : BOp.ok Broadcaster.empty (.sub "lobby") :=
    fun t s hts _ => Option.noConfusion hts
  exact broadcaster_two_map_invariant Broadcaster.empty (.sub "lobby") hL hU hok

/-- Counterexample to C3 as frozen: after subscribing id 1 to topic
`"a"`, the claimed invariant holds, but unsubscribing id 1 under the
different topic name `"b"` (one of the operations the claim covers)
removes the id from the subscription map while leaving it inside topic
`"a"`'s id-set — the invariant is not preserved. -/
theorem broadcaster_two_map_counterexample :
    ((Broadcaster.empty.subscribe "a").1).Linked ∧
    ¬ (BOp.step (Broadcaster.empty.subscribe "a").1 (.unsub "b" 1)).Linked := by
  have e1 : (Broadcaster.empty.subscribe "a").1 =
      ⟨[("a", [1])], [(1, { msgs := [ackOf 1], closed := false })], 2⟩ := by rfl
  have e2 : BOp.step
      (⟨[("a", [1])], [(1, { msgs := [ackOf 1], closed := false })], 2⟩ : Broadcaster)
      (.unsub "b" 1) = ⟨[("a", [1])], [], 2⟩ := by rfl
  constructor
  · rw [e1]
    intro i
    constructor
    · rintro ⟨t, s, hts, hm⟩
      simp only [lookupA] at hts
      by_cases ht : "a" = t
      · rw [if_pos ht] at hts
        cases hts
        have hi : i = 1 := List.mem_singleton.mp hm
        subst hi
        simp [lookupA]
      · rw [if_neg ht] at hts
        cases hts
    · intro h
      simp only [lookupA] at h
      by_cases hi : (1 : Nat) = i
      · subst hi
        exact ⟨"a", [1], by simp [lookupA], List.mem_singleton.mpr rfl⟩
      · rw [if_neg hi] at h
        exact Bool.noConfusion h
  · rw [e1, e2]
    intro hL
    have h1 := (hL 1).mp ⟨"a", [1], by simp [lookupA], List.mem_singleton.mpr rfl⟩
    exact Bool.noConfusion h1

theorem counterAfter_closed (n : Nat) : counterAfter n = (1 + n) % U32MOD := by
  induction n with
  | zero => rfl
  | succ n ih =>
    simp only [counterAfter, getNextSubscriptionId, ih, U32MOD]
    omega

theorem subscriptionIdAt_closed (n : Nat) : subscriptionIdAt n = (1 + n) % U32MOD :=
  counterAfter_closed n

/-- C9 (amended).  Ids come from the process-wide 32-bit counter starting
at 1 (`subscribe` hands out `next_id` and stores its wrapped successor),
and along the first `2 ^ 32 − 1` calls the returned ids are strictly
increasing — hence pairwise distinct.  (Beyond that the `AtomicU32`
wraps and ids repeat: see the counterexample.) -/
theorem subscription_ids_strictly_monotone :
    subscriptionIdAt 0 = 1 ∧
    (∀ i j : Nat, i < j → j < U32MOD - 1 → subscriptionIdAt i < subscriptionIdAt j) ∧
    (∀ (b : Broadcaster) (name : String),
      (b.subscribe name).2 = b.nextId ∧
      ((b.subscribe name).1).nextId = (b.nextId + 1) % U32MOD) := by
  refine ⟨rfl, ?_, ?_⟩
  · intro i j hij hj
    rw [subscriptionIdAt_closed, subscriptionIdAt_closed]
    simp only [U32MOD] at hj ⊢
    omega
  · intro b name
    exact ⟨rfl, rfl⟩

/-- Witness for C9 (amended): the first two ids are 1 < 2. -/
theorem subscription_ids_strictly_monotone_witness :
    subscriptionIdAt 0 < subscriptionIdAt 1 ∧ (0 : Nat) < 1 ∧ 1 < U32MOD - 1 :=
  ⟨subscription_ids_strictly_monotone.2.1 0 1 (by decide)
      (by simp [U32MOD]), by decide, by simp [U32MOD]⟩

/-- Counterexample to C9 as frozen: in a sequence of `2 ^ 32 + 1`
subscribes, the id of call `4294967295` is 0, smaller than the id 1 of
call 0 (monotonicity fails), and call `4294967296` returns 1 again
(distinctness fails). -/
theorem subscription_ids_counterexample :
    subscriptionIdAt 4294967295 < subscriptionIdAt 0 ∧
    subscriptionIdAt 4294967296 = subscriptionIdAt 0 ∧
    (0 : Nat) < 4294967295 := by
  rw [subscriptionIdAt_closed 4294967295, subscriptionIdAt_closed 4294967296,
    subscriptionIdAt_closed 0]
  simp [U32MOD]

/-! ### Header arithmetic -/

theorem CompressorType.tag_lt (c : CompressorType) : c.tag < 4 := by
  cases c <;> decide

theorem CompressorType.fromUsize_tag (c : CompressorType) :
    CompressorType.fromUsize c.tag = c := by
  cases c <;> rfl

theorem u32beVal_u32beBytes (n : Nat) (h : n < 4294967296) :
    u32beVal (n / 16777216 % 256) (n / 65536 % 256) (n / 256 % 256) (n % 256) = n := by
  unfold u32beVal
  omega

theorem and_not_mask_shiftRight (x : Nat) (hx : x < 4294967296) :
    (x &&& (18446744073709551615 - 1073741823)) >>> 30 = x >>> 30 := by
  apply Nat.eq_of_testBit_eq
  intro i
  rw [Nat.testBit_shiftRight, Nat.testBit_shiftRight, Nat.testBit_and]
  rw [show (18446744073709551615 - 1073741823 : Nat) = (2 ^ 34 - 1) <<< 30 by
    rw [Nat.shiftLeft_eq]; norm_num]
  rw [Nat.testBit_shiftLeft, Nat.testBit_two_pow_sub_one]
  by_cases hi : i < 34
  · simp [hi]
  · have hbit : x.testBit (30 + i) = false := by
      refine Nat.testBit_lt_two_pow (lt_of_lt_of_le hx ?_)
      calc (4294967296 : Nat) = 2 ^ 32 := by norm_num
        _ ≤ 2 ^ (30 + i) := Nat.pow_le_pow_right (by norm_num) (by omega)
    simp [hbit]

theorem decodeHeader_of_lor (L : Nat) (c : CompressorType) (hL : L < 1073741824) :
    decodeHeader (L ||| (c.tag <<< 30)) = (L, c) := by
  have p30 : (2 : Nat) ^ 30 = 1073741824 := by norm_num
  have htag : c.tag < 4 := CompressorType.tag_lt c
  have hL' : L < 2 ^ 30 := by rw [p30]; exact hL
  have he : L ||| (c.tag <<< 30) = 1073741824 * c.tag + L := by
    rw [Nat.shiftLeft_eq, Nat.lor_comm, Nat.mul_comm c.tag, p30]
    rw [← p30]
    exact (Nat.mul_add_lt_is_or hL' c.tag).symm
  have hx : L ||| (c.tag <<< 30) < 4294967296 := by rw [he]; omega
  have ha : (L ||| (c.tag <<< 30)) &&& COMPRESSION_MASK = L := by
    rw [show COMPRESSION_MASK = 2 ^ 30 - 1 by norm_num [COMPRESSION_MASK]]
    rw [Nat.and_pow_two_sub_one_eq_mod, he, p30]
    omega
  have hb : CompressorType.fromUsize
      (((L ||| (c.tag <<< 30)) &&& USIZE_NOT_MASK) >>> COMPRESSION_BIT) = c := by
    show CompressorType.fromUsize
      (((L ||| (c.tag <<< 30)) &&& (18446744073709551615 - 1073741823)) >>> 30) = c
    rw [and_not_mask_shiftRight _ hx, Nat.shiftRight_eq_div_pow, he]
    have hdiv : (1073741824 * c.tag + L) / 2 ^ 30 = c.tag := by
      rw [p30]; omega
    rw [hdiv, CompressorType.fromUsize_tag]
  show ((L ||| (c.tag <<< 30)) &&& COMPRESSION_MASK,
    CompressorType.fromUsize
      (((L ||| (c.tag <<< 30)) &&& USIZE_NOT_MASK) >>> COMPRESSION_BIT)) = (L, c)
  rw [ha, hb]

theorem decodeHeader_raw (n : Nat) (h : n < 1073741824) :
    decodeHeader n = (n, CompressorType.None) := by
  have p30 : (2 : Nat) ^ 30 = 1073741824 := by norm_num
  have ha : n &&& COMPRESSION_MASK = n := by
    rw [show COMPRESSION_MASK = 2 ^ 30 - 1 by norm_num [COMPRESSION_MASK]]
    rw [Nat.and_pow_two_sub_one_eq_mod]
    omega
  have hb : CompressorType.fromUsize ((n &&& USIZE_NOT_MASK) >>> COMPRESSION_BIT) =
      CompressorType.None := by
    show CompressorType.fromUsize
      ((n &&& (18446744073709551615 - 1073741823)) >>> 30) = CompressorType.None
    rw [and_not_mask_shiftRight _ (by omega), Nat.shiftRight_eq_div_pow]
    have hdiv : n / 2 ^ 30 = 0 := by rw [p30]; omega
    rw [hdiv]
    rfl
  show (n &&& COMPRESSION_MASK,
    CompressorType.fromUsize ((n &&& USIZE_NOT_MASK) >>> COMPRESSION_BIT)) =
    (n, CompressorType.None)
  rw [ha, hb]

theorem lor_tag_lt (L : Nat) (c : CompressorType) (hL : L < 1073741824) :
    L ||| (c.tag <<< 30) < 4294967296 := by
  have p30 : (2 : Nat) ^ 30 = 1073741824 := by norm_num
  have he : L ||| (c.tag <<< 30) = 1073741824 * c.tag + L := by
    rw [Nat.shiftLeft_eq, Nat.lor_comm, Nat.mul_comm c.tag, p30, ← p30]
    exact (Nat.mul_add_lt_is_or (by rw [p30]; exact hL) c.tag).symm
  have := CompressorType.tag_lt c
  omega

theorem compressApp_error (X : Compressors) (c : CompressorType) (s : List Nat)
    (e : KvError) (h : compressApp X c s = .error e) : e = .ioError := by
  cases c <;> simp only [compressApp] at h
  · cases h
  · rcases hg : X.gzip.comp s with e0 | a <;> rw [hg] at h <;> cases h; rfl
  · rcases hg : X.lz4.comp s with e0 | a <;> rw [hg] at h <;> cases h; rfl
  · rcases hg : X.zstd.comp s with e0 | a <;> rw [hg] at h <;> cases h; rfl

/-- C6.  Encoding a message whose serialized length is at least `2 ^ 30`
fails with `FrameError` and leaves the output buffer untouched; for any
shorter message the encoder never fails with `FrameError` (its only
other failure channel is the compressor's I/O error). -/
theorem frame_size_ceiling {Msg : Type} (W : WireCodec Msg) (X : Compressors)
    (m : Msg) (c : CompressorType) (buf : List Nat) :
    ((W.enc m).length ≥ 1073741824 →
      encodeFrameWithCompressor W X m c buf = (.error .frameError, buf)) ∧
    ((W.enc m).length < 1073741824 →
      (encodeFrameWithCompressor W X m c buf).1 ≠ .error .frameError) := by
  constructor
  · intro h
    unfold encodeFrameWithCompressor
    rw [if_pos (show (W.enc m).length ≥ MAX_FRAME from h)]
  · intro h
    unfold encodeFrameWithCompressor
    rw [if_neg (show ¬ (W.enc m).length ≥ MAX_FRAME from not_le.mpr h)]
    dsimp only
    by_cases hb : (W.enc m).length > COMPRESSION_LIMIT
    · rw [if_pos hb]
      rcases hca : compressApp X c (W.enc m) with e | app <;> dsimp only
      · have he := compressApp_error X c (W.enc m) e hca
        subst he
        intro hq
        exact KvError.noConfusion (Except.error.inj hq)
      · intro hq
        cases hq
    · rw [if_neg hb]
      intro hq
      cases hq

/-- Witness for C6: a `2 ^ 30`-byte message is rejected with `FrameError`
and the buffer survives; a 1-byte message is not rejected. -/
theorem frame_size_ceiling_witness :
    (bigMsgWire.enc 0).length ≥ 1073741824 ∧
    encodeFrameWithCompressor bigMsgWire idComps 0 .GZIP [] = (.error .frameError, []) ∧
    (idWire.enc [7]).length < 1073741824 ∧
    (encodeFrameWithCompressor idWire idComps [7] .GZIP []).1 ≠ .error .frameError := by
  have h1 : (bigMsgWire.enc 0).length ≥ 1073741824 := by
    show (List.replicate 1073741824 0).length ≥ 1073741824
    rw [List.length_replicate]
  have h2 : (idWire.enc [7]).length < 1073741824 := by
    show ([7] : List Nat).length < 1073741824
    simp
  exact ⟨h1, (frame_size_ceiling bigMsgWire idComps 0 .GZIP []).1 h1,
    h2, (frame_size_ceiling idWire idComps [7] .GZIP []).2 h2⟩

/-- C1 (amended).  Decoding inverts encoding for every message whose
serialized form fits a frame, given the library round-trip laws: the
`prost` codec inverts on this message, and — when the message is long
enough to be compressed — the chosen compressor succeeds, inverts, and
stays under `2 ^ 30` bytes.  For the `None` preference this holds only
up to the 1436-byte threshold: above it the `None` arm of `compress`
writes an empty payload and the message is lost (see the
counterexample). -/
theorem frame_roundtrip {Msg : Type} (W : WireCodec Msg) (X : Compressors)
    (m : Msg) (c : CompressorType)
    (hdec : W.dec (W.enc m) = .ok m)
    (hsize : (W.enc m).length < 1073741824)
    (hnone : c = CompressorType.None → (W.enc m).length ≤ 1436)
    (hcomp : (W.enc m).length > 1436 →
      ∃ y, compressApp X c (W.enc m) = .ok y ∧
           decompressApp X c y = .ok (W.enc m) ∧ y.length < 1073741824) :
    decodeFrame W X (encodeFrameWithCompressor W X m c []).2 = .ok (m, []) := by
  unfold encodeFrameWithCompressor
  rw [if_neg (show ¬ (W.enc m).length ≥ MAX_FRAME from not_le.mpr hsize)]
  dsimp only
  by_cases hb : (W.enc m).length > COMPRESSION_LIMIT
  · -- compressed path
    rw [if_pos hb]
    have hb' : (W.enc m).length > 1436 := hb
    have hcN : c ≠ CompressorType.None := by
      intro hc
      have := hnone hc
      omega
    rcases hcomp hb' with ⟨y, hy, hyd, hylen⟩
    rw [hy]
    dsimp only
    have hdrop : (([] : List Nat) ++ u32beBytes (W.enc m).length).drop LEN_LEN = [] := by
      simp [u32beBytes, LEN_LEN]
    rw [hdrop, List.nil_append]
    have hHlt : y.length ||| (c.tag <<< COMPRESSION_BIT) < 4294967296 :=
      lor_tag_lt y.length c hylen
    have hdh : decodeHeader (y.length ||| (c.tag <<< COMPRESSION_BIT)) = (y.length, c) :=
      decodeHeader_of_lor y.length c hylen
    simp only [u32beBytes, List.cons_append, List.nil_append, decodeFrame]
    rw [show u32beVal
        ((y.length ||| c.tag <<< COMPRESSION_BIT) / 16777216 % 256)
        ((y.length ||| c.tag <<< COMPRESSION_BIT) / 65536 % 256)
        ((y.length ||| c.tag <<< COMPRESSION_BIT) / 256 % 256)
        ((y.length ||| c.tag <<< COMPRESSION_BIT) % 256) =
        y.length ||| c.tag <<< COMPRESSION_BIT from
      u32beVal_u32beBytes _ hHlt]
    rw [hdh]
    dsimp only
    rw [if_pos hcN, if_neg (lt_irrefl y.length), List.take_length, hyd]
    dsimp only
    rw [hdec]
    dsimp only
    rw [List.drop_length]
  · -- raw path
    rw [if_neg hb]
    dsimp only
    rw [List.nil_append]
    simp only [u32beBytes, List.cons_append, List.nil_append, decodeFrame]
    rw [show u32beVal
        ((W.enc m).length / 16777216 % 256) ((W.enc m).length / 65536 % 256)
        ((W.enc m).length / 256 % 256) ((W.enc m).length % 256) =
        (W.enc m).length from
      u32beVal_u32beBytes _ (by omega)]
    rw [decodeHeader_raw (W.enc m).length hsize]
    dsimp only
    rw [if_neg (by simp)]
    rw [if_neg (lt_irrefl (W.enc m).length), List.take_length, hdec]
    dsimp only
    rw [List.drop_length]

set_option maxRecDepth 40000 in
/-- Counterexample to C1 as frozen: with compressor preference `None`
and a message longer than 1436 bytes, the encoder takes the compression
branch whose `None` arm appends nothing, emitting an empty frame; the
decoder cannot recover the message (here, under the identity codecs, it
yields the empty byte message instead). -/
theorem frame_roundtrip_counterexample :
    (idWire.enc (List.replicate 1437 0)).length > 1436 ∧
    decodeFrame idWire idComps
      (encodeFrameWithCompressor idWire idComps (List.replicate 1437 0)
        CompressorType.None []).2 = .ok (([] : List Nat), []) ∧
    decodeFrame idWire idComps
      (encodeFrameWithCompressor idWire idComps (List.replicate 1437 0)
        CompressorType.None []).2 ≠ .ok (List.replicate 1437 0, []) := by
  refine ⟨by decide, by decide, by decide⟩

/-- Witness for C1 (amended): a 1437-byte message round-trips under the
`GZIP` preference with lossless codecs. -/
theorem frame_roundtrip_witness :
    decodeFrame idWire idComps
      (encodeFrameWithCompressor idWire idComps (List.replicate 1437 0)
        CompressorType.GZIP []).2 = .ok (List.replicate 1437 0, []) := by
  refine frame_roundtrip idWire idComps (List.replicate 1437 0)
    CompressorType.GZIP rfl ?_ ?_ ?_
  · show (List.replicate 1437 (0 : Nat)).length < 1073741824
    rw [List.length_replicate]
    norm_num
  · intro hc
    cases hc
  · intro _
    refine ⟨List.replicate 1437 0, rfl, rfl, ?_⟩
    rw [List.length_replicate]
    norm_num

/-! ### The compression threshold (header tag bits) -/

theorem lor_tag_shiftRight (L : Nat) (c : CompressorType) (hL : L < 1073741824) :
    (L ||| (c.tag <<< 30)) >>> 30 = c.tag := by
  have p30 : (2 : Nat) ^ 30 = 1073741824 := by norm_num
  have he : L ||| (c.tag <<< 30) = 1073741824 * c.tag + L := by
    rw [Nat.shiftLeft_eq, Nat.lor_comm, Nat.mul_comm c.tag, p30, ← p30]
    exact (Nat.mul_add_lt_is_or (by rw [p30]; exact hL) c.tag).symm
  rw [Nat.shiftRight_eq_div_pow, he, p30]
  omega

theorem frameTag_u32beBytes (H : Nat) (rest : List Nat) (h : H < 4294967296) :
    frameTag (u32beBytes H ++ rest) = H >>> 30 := by
  simp only [u32beBytes, List.cons_append, List.nil_append, frameTag, frameHeader]
  rw [u32beVal_u32beBytes H h]

theorem CompressorType.tag_eq_zero_iff (c : CompressorType) :
    c.tag = 0 ↔ c = CompressorType.None := by
  cases c <;> simp [CompressorType.tag]

/-- C2 (amended).  For a compressible frame (serialized length below
`2 ^ 30`, compressor succeeding under `2 ^ 30` bytes): with a non-`None`
preference the top two header bits are non-zero exactly when the
uncompressed length exceeds 1436 bytes; at or below 1436 bytes they are
always zero; and with the `None` preference they are zero even above the
threshold (where the source emits an empty payload), so the frozen
"non-zero iff > 1436 for every preference" fails only for `None`. -/
theorem compression_threshold {Msg : Type} (W : WireCodec Msg) (X : Compressors)
    (m : Msg) (c : CompressorType)
    (hsize : (W.enc m).length < 1073741824)
    (hcomp : (W.enc m).length > 1436 →
      ∃ y, compressApp X c (W.enc m) = .ok y ∧ y.length < 1073741824) :
    (c ≠ CompressorType.None →
      (frameTag (encodeFrameWithCompressor W X m c []).2 ≠ 0 ↔
        (W.enc m).length > 1436)) ∧
    ((W.enc m).length ≤ 1436 →
      frameTag (encodeFrameWithCompressor W X m c []).2 = 0) ∧
    (c = CompressorType.None →
      frameTag (encodeFrameWithCompressor W X m c []).2 = 0) := by
  unfold encodeFrameWithCompressor
  rw [if_neg (show ¬ (W.enc m).length ≥ MAX_FRAME from not_le.mpr hsize)]
  dsimp only
  by_cases hb : (W.enc m).length > COMPRESSION_LIMIT
  · rw [if_pos hb]
    have hb' : (W.enc m).length > 1436 := hb
    rcases hcomp hb' with ⟨y, hy, hylen⟩
    rw [hy]
    dsimp only
    rw [show (([] : List Nat) ++ u32beBytes (W.enc m).length).drop LEN_LEN = [] from by
      simp [u32beBytes, LEN_LEN]]
    rw [List.nil_append]
    have htag : frameTag (u32beBytes (y.length ||| c.tag <<< COMPRESSION_BIT) ++ y) =
        c.tag := by
      show frameTag (u32beBytes (y.length ||| c.tag <<< 30) ++ y) = c.tag
      rw [frameTag_u32beBytes _ _ (lor_tag_lt y.length c hylen)]
      exact lor_tag_shiftRight y.length c hylen
    rw [htag]
    refine ⟨fun hcN => iff_of_true ?_ hb', fun hle => absurd hb' (by omega), fun hcN => ?_⟩
    · intro h0
      exact hcN ((CompressorType.tag_eq_zero_iff c).mp h0)
    · rw [hcN]
      rfl
  · rw [if_neg hb]
    dsimp only
    rw [List.nil_append]
    have hble : ¬ (W.enc m).length > 1436 := hb
    have htag : frameTag (u32beBytes (W.enc m).length ++ W.enc m) = 0 := by
      rw [frameTag_u32beBytes _ _ (by omega), Nat.shiftRight_eq_div_pow]
      rw [show (2 : Nat) ^ 30 = 1073741824 from by norm_num]
      omega
    rw [htag]
    exact ⟨fun _ => iff_of_false (by simp) hble, fun _ => rfl, fun _ => rfl⟩

set_option maxRecDepth 40000 in
/-- Counterexample to C2 as frozen: a 1437-byte message encoded with the
`None` preference exceeds the threshold, yet the header's top two bits
are zero. -/
theorem compression_threshold_counterexample :
    (idWire.enc (List.replicate 1437 0)).length > 1436 ∧
    frameTag (encodeFrameWithCompressor idWire idComps (List.replicate 1437 0)
      CompressorType.None []).2 = 0 := by
  refine ⟨by decide, by decide⟩

/-- Witness for C2 (amended): a 5-byte message keeps a zero tag under
`GZIP`, and a 1437-byte message gets a non-zero tag under `GZIP`. -/
theorem compression_threshold_witness :
    frameTag (encodeFrameWithCompressor idWire idComps [5] CompressorType.GZIP []).2
      = 0 ∧
    frameTag (encodeFrameWithCompressor idWire idComps (List.replicate 1437 0)
      CompressorType.GZIP []).2 ≠ 0 := by
  have hsmall := compression_threshold idWire idComps [5] CompressorType.GZIP
    (by decide) (fun hcontra => absurd hcontra (by decide))
  have hbig := compression_threshold idWire idComps (List.replicate 1437 0)
    CompressorType.GZIP
    (by show (List.replicate 1437 (0 : Nat)).length < 1073741824
        rw [List.length_replicate]; norm_num)
    (fun _ => ⟨List.replicate 1437 0, rfl, by rw [List.length_replicate]; norm_num⟩)
  refine ⟨hsmall.2.1 (by decide), (hbig.1 (by decide)).mpr ?_⟩
  show (List.replicate 1437 (0 : Nat)).length > 1436
  rw [List.length_replicate]
  norm_num

/-- C7 (amended).  `StreamResult::new` on the first response: status 200
with an integer `values[0]` yields `Ok` with that integer truncated to
`u32` (equal to the integer whenever it fits in 32 bits) and the rest of
the stream; no first response, an error item, a non-200 status, or an
empty values list yield `Internal("Invalid stream")`; but a 200 response
whose `values[0]` is present and non-integer makes the client panic
(`unwrap` of the failed conversion) instead of returning the error. -/
theorem stream_result_new_cases :
    (∀ (r : CommandResponse) (rest : List (Except KvError CommandResponse))
       (i : Int) (vs : List Value),
      r.status = 200 → r.values = ⟨some (.vinteger i)⟩ :: vs →
      StreamResult.new (.ok r :: rest) = .ok ⟨(i % (4294967296 : Int)).toNat, rest⟩) ∧
    StreamResult.new [] = .err (.internal "Invalid stream") ∧
    (∀ e rest, StreamResult.new (.error e :: rest) =
      .err (.internal "Invalid stream")) ∧
    (∀ r rest, r.status ≠ 200 →
      StreamResult.new (.ok r :: rest) = .err (.internal "Invalid stream")) ∧
    (∀ r rest, r.status = 200 → r.values = [] →
      StreamResult.new (.ok r :: rest) = .err (.internal "Invalid stream")) ∧
    (∀ (r : CommandResponse) rest (v0 : Value) (vs : List Value),
      r.status = 200 → r.values = v0 :: vs →
      (∀ i : Int, v0.value ≠ some (.vinteger i)) →
      StreamResult.new (.ok r :: rest) = .panicked) := by
  refine ⟨?_, rfl, fun e rest => rfl, ?_, ?_, ?_⟩
  · intro r rest i vs h200 hv
    simp only [StreamResult.new]
    rw [if_pos h200, hv]
    rfl
  · intro r rest hne
    simp only [StreamResult.new]
    rw [if_neg hne]
  · intro r rest h200 hv
    simp only [StreamResult.new]
    rw [if_pos h200, hv]
  · intro r rest v0 vs h200 hv hnint
    simp only [StreamResult.new]
    rw [if_pos h200, hv]
    dsimp only
    have herr : v0.tryIntoI64 = .error (.convertError "" "Integer") := by
      unfold Value.tryIntoI64
      rcases hval : v0.value with _ | vi
      · rfl
      · rcases vi with s | b | i | bits | b
        · rfl
        · rfl
        · exact absurd hval (hnint i)
        · rfl
        · rfl
    rw [herr]

/-- Counterexample to C7 as frozen: a first response with status 200 and
a boolean `values[0]` makes `StreamResult::new` panic — it does not
return `Internal("Invalid stream")` as the claim states. -/
theorem stream_result_counterexample :
    StreamResult.new [.ok { status := 200, message := "",
                            values := [⟨some (.vbool true)⟩], pairs := [] }] =
      .panicked ∧
    (RRes.panicked : RRes StreamResult) ≠ .err (.internal "Invalid stream") :=
  ⟨rfl, fun h => RRes.noConfusion h⟩

/-- Witness for C7 (amended): a 200 response carrying `Integer(7)` gives
a stream handle with id 7. -/
theorem stream_result_new_cases_witness :
    StreamResult.new [.ok { status := 200, message := "",
                            values := [⟨some (.vinteger 7)⟩], pairs := [] }] =
      .ok ⟨((7 : Int) % (4294967296 : Int)).toNat, []⟩ :=
  stream_result_new_cases.1
    { status := 200, message := "", values := [⟨some (.vinteger 7)⟩], pairs := [] }
    [] 7 [] rfl rfl

end CCKV

